import Mathlib

/-!
Verification development for the gps-led-clock repository.

The two algorithmic components are shallowly embedded here:

* `EWL` — the slot-based EEPROM wear-leveling store
  (src/EEPROMWearLeveling.cpp / .h).  EEPROM is modelled as a
  byte-addressed memory `Mem : Nat → Nat` (each cell reduced mod 256,
  as on hardware); 16-bit sequence numbers are stored little-endian,
  matching `EEPROM.get`/`EEPROM.put` of a `uint16_t` on AVR.

* `GSF` — the GPS stability filter (src/GpsStabilityFilter.cpp / .h).
  The `float` samples are embedded as exact rationals `ℚ`; the claims
  concern which samples get sorted, trimmed and averaged, not IEEE
  rounding, so `ℚ` is the faithful idealisation of the arithmetic.
-/

namespace EWL

/-! ### Byte-addressed EEPROM model -/

/-- Byte-addressed EEPROM contents: address to stored byte. -/
def Mem : Type := Nat → Nat

/-- Model of `EEPROM.read(addr)`: each cell holds one byte. -/
def eread (m : Mem) (a : Nat) : Nat := m a % 256

/-- Model of `EEPROM.write(addr, v)` (single byte). -/
def ewrite (m : Mem) (a v : Nat) : Mem := fun x => if x = a then v % 256 else m x

/-- Model of `EEPROM.get(addr, uint16)`: little-endian 16-bit load. -/
def eget16 (m : Mem) (a : Nat) : Nat := eread m a + 256 * eread m (a + 1)

/-- Model of `EEPROM.put(addr, uint16)`: little-endian 16-bit store. -/
def eput16 (m : Mem) (a v : Nat) : Mem := ewrite (ewrite m a (v % 256)) (a + 1) (v / 256 % 256)

/-- Write `k` consecutive data bytes starting at `a`; byte `i` is `data i`
(the loop in `EEPROMWearLeveling::writeSlot`). -/
def writeBytes (m : Mem) (a : Nat) (data : Nat → Nat) : Nat → Mem
  | 0 => m
  | k + 1 => ewrite (writeBytes m a data k) (a + k) (data k)

/-- Factory-erased EEPROM: every cell reads 0xFF. -/
def erasedMem : Mem := fun _ => 0xFF

/-! ### Wear-leveling configuration (EEPROMWearLeveling.h) -/

def WL_NUM_SLOTS : Nat := 16
def WL_SEQUENCE_SIZE : Nat := 2
def WL_INVALID_SEQUENCE : Nat := 0
def WL_TIME_FORMAT_START_ADDR : Nat := 10
def WL_POWER_CYCLE_START_ADDR : Nat := 60
def WL_TIME_FORMAT_DATA_SIZE : Nat := 1
def WL_POWER_CYCLE_DATA_SIZE : Nat := 4
def WL_TIME_FORMAT_SLOT_SIZE : Nat := WL_SEQUENCE_SIZE + WL_TIME_FORMAT_DATA_SIZE
def WL_POWER_CYCLE_SLOT_SIZE : Nat := WL_SEQUENCE_SIZE + WL_POWER_CYCLE_DATA_SIZE

/-- Enumeration of supported data types for wear-leveling. -/
inductive WLDataType
  | WL_TIME_FORMAT
  | WL_POWER_CYCLE
deriving DecidableEq

/-- Information about a wear-leveling slot configuration. -/
structure WLSlotInfo where
  startAddr : Nat
  slotSize : Nat
  dataSize : Nat

/-- Configuration table for each data type's slot layout. -/
def slotConfig : WLDataType → WLSlotInfo
  | .WL_TIME_FORMAT =>
      { startAddr := WL_TIME_FORMAT_START_ADDR
        slotSize := WL_TIME_FORMAT_SLOT_SIZE
        dataSize := WL_TIME_FORMAT_DATA_SIZE }
  | .WL_POWER_CYCLE =>
      { startAddr := WL_POWER_CYCLE_START_ADDR
        slotSize := WL_POWER_CYCLE_SLOT_SIZE
        dataSize := WL_POWER_CYCLE_DATA_SIZE }

/-- Runtime state of `EEPROMWearLeveling`: next sequence number and current
slot index per data type. -/
structure EEPROMWearLeveling where
  nextSequence : WLDataType → Nat
  currentSlot : WLDataType → Nat

/-- The constructor: sequence numbers start at 1, current slot at 0. -/
def ewlInit : EEPROMWearLeveling :=
  { nextSequence := fun _ => 1, currentSlot := fun _ => 0 }

/-- Pointwise update of a per-data-type field (assignment to
`nextSequence[dataType]` / `currentSlot[dataType]`). -/
def setAt (f : WLDataType → Nat) (dt : WLDataType) (v : Nat) : WLDataType → Nat :=
  fun d => if d = dt then v else f d

/-- `EEPROMWearLeveling::getSlotAddress`. -/
def getSlotAddress (dt : WLDataType) (slotIndex : Nat) : Nat :=
  (slotConfig dt).startAddr + slotIndex * (slotConfig dt).slotSize

/-- `EEPROMWearLeveling::readSlotSequence`: out-of-range slots and the
erased-cell pattern 0xFFFF both read as the invalid sequence 0. -/
def readSlotSequence (m : Mem) (dt : WLDataType) (slotIndex : Nat) : Nat :=
  if WL_NUM_SLOTS ≤ slotIndex then WL_INVALID_SEQUENCE
  else
    let sequence := eget16 m (getSlotAddress dt slotIndex)
    if sequence = 0xFFFF then WL_INVALID_SEQUENCE else sequence

/-- `EEPROMWearLeveling::writeSlot`: sequence number first (16-bit LE),
then `dataSize` payload bytes. -/
def writeSlot (m : Mem) (dt : WLDataType) (slotIndex sequence : Nat) (data : Nat → Nat) : Mem :=
  if WL_NUM_SLOTS ≤ slotIndex then m
  else
    let addr := getSlotAddress dt slotIndex
    writeBytes (eput16 m addr sequence) (addr + WL_SEQUENCE_SIZE) data (slotConfig dt).dataSize

/-- `EEPROMWearLeveling::readSlot`: `none` when the slot is out of range or
holds an invalid sequence, otherwise the `dataSize` payload bytes. -/
def readSlot (m : Mem) (dt : WLDataType) (slotIndex : Nat) : Option (List Nat) :=
  if WL_NUM_SLOTS ≤ slotIndex then none
  else if readSlotSequence m dt slotIndex = WL_INVALID_SEQUENCE then none
  else
    some ((List.range (slotConfig dt).dataSize).map fun i =>
      eread m (getSlotAddress dt slotIndex + WL_SEQUENCE_SIZE + i))

/-- Loop body of `EEPROMWearLeveling::findLatestSlot`; the accumulator is
`(highestSequence, latestSlot)`. -/
def findLatestStep (m : Mem) (dt : WLDataType) (acc : Nat × Nat) (slot : Nat) : Nat × Nat :=
  let sequence := readSlotSequence m dt slot
  if sequence ≠ WL_INVALID_SEQUENCE then
    if acc.1 = WL_INVALID_SEQUENCE ∨ acc.1 < sequence ∨ (0xF000 < acc.1 ∧ sequence < 0x1000) then
      (sequence, slot)
    else acc
  else acc

/-- `EEPROMWearLeveling::findLatestSlot`: scan all slots, tracking the
highest sequence with the wraparound heuristic. -/
def findLatestSlot (m : Mem) (dt : WLDataType) : Nat :=
  ((List.range WL_NUM_SLOTS).foldl (findLatestStep m dt) (WL_INVALID_SEQUENCE, 0)).2

/-- `EEPROMWearLeveling::begin`: per data type, find the latest slot and set
the next sequence number one past its sequence. -/
def begin (m : Mem) : EEPROMWearLeveling :=
  { nextSequence := fun dt =>
      let latestSlot := findLatestSlot m dt
      let latestSequence := readSlotSequence m dt latestSlot
      if latestSequence = WL_INVALID_SEQUENCE then 1
      else if latestSequence = 0xFFFF then 1
      else latestSequence + 1
    currentSlot := fun dt => findLatestSlot m dt }

/-- Little-endian decode of a payload byte list (reading a multi-byte value
back out of consecutive EEPROM cells). -/
def decodeLE (l : List Nat) : Nat := l.foldr (fun b acc => b + 256 * acc) 0

/-- `EEPROMWearLeveling::readTimeFormat`: rescan, read the latest slot,
validate the format byte, default 0. -/
def readTimeFormat (m : Mem) : Nat :=
  let latestSlot := findLatestSlot m .WL_TIME_FORMAT
  match readSlot m .WL_TIME_FORMAT latestSlot with
  | some bytes =>
      let format := decodeLE bytes
      if format = 0 ∨ format = 1 then format else 0
  | none => 0

/-- `EEPROMWearLeveling::writeTimeFormat`: validate, advance the slot,
write, then bump the sequence number avoiding the reserved values. -/
def writeTimeFormat (st : EEPROMWearLeveling) (m : Mem) (format : Nat) :
    EEPROMWearLeveling × Mem :=
  if format ≠ 0 ∧ format ≠ 1 then (st, m)
  else
    let newSlot := (st.currentSlot .WL_TIME_FORMAT + 1) % WL_NUM_SLOTS
    let m2 := writeSlot m .WL_TIME_FORMAT newSlot (st.nextSequence .WL_TIME_FORMAT)
      (fun _ => format)
    let seqIncr := (st.nextSequence .WL_TIME_FORMAT + 1) % 65536
    let seqNext := if seqIncr = WL_INVALID_SEQUENCE ∨ seqIncr = 0xFFFF then 1 else seqIncr
    ({ nextSequence := setAt st.nextSequence .WL_TIME_FORMAT seqNext
       currentSlot := setAt st.currentSlot .WL_TIME_FORMAT newSlot }, m2)

/-- `EEPROMWearLeveling::readPowerCycleCount`: rescan, read the latest slot,
validate against the sanity ceiling, default 0. -/
def readPowerCycleCount (m : Mem) : Nat :=
  let latestSlot := findLatestSlot m .WL_POWER_CYCLE
  match readSlot m .WL_POWER_CYCLE latestSlot with
  | some bytes =>
      let count := decodeLE bytes
      if count < 0xFFFFFF00 then count else 0
  | none => 0

/-- `EEPROMWearLeveling::writePowerCycleCount`: advance the slot, write the
4-byte little-endian count, bump the sequence avoiding reserved values. -/
def writePowerCycleCount (st : EEPROMWearLeveling) (m : Mem) (count : Nat) :
    EEPROMWearLeveling × Mem :=
  let newSlot := (st.currentSlot .WL_POWER_CYCLE + 1) % WL_NUM_SLOTS
  let m2 := writeSlot m .WL_POWER_CYCLE newSlot (st.nextSequence .WL_POWER_CYCLE)
    (fun i => count / 256 ^ i)
  let seqIncr := (st.nextSequence .WL_POWER_CYCLE + 1) % 65536
  let seqNext := if seqIncr = WL_INVALID_SEQUENCE ∨ seqIncr = 0xFFFF then 1 else seqIncr
  ({ nextSequence := setAt st.nextSequence .WL_POWER_CYCLE seqNext
     currentSlot := setAt st.currentSlot .WL_POWER_CYCLE newSlot }, m2)

/-- Iterate `writeTimeFormat` over a list of values. -/
def writeManyTF (p : EEPROMWearLeveling × Mem) (vs : List Nat) : EEPROMWearLeveling × Mem :=
  vs.foldl (fun q v => writeTimeFormat q.1 q.2 v) p

/-- Iterate `writePowerCycleCount` over a list of values. -/
def writeManyPC (p : EEPROMWearLeveling × Mem) (vs : List Nat) : EEPROMWearLeveling × Mem :=
  vs.foldl (fun q v => writePowerCycleCount q.1 q.2 v) p

/-- Generic write step shared by `writeTimeFormat` (valid case) and
`writePowerCycleCount`: advance the slot, write sequence plus payload
bytes, then bump the sequence number avoiding the reserved values.
`dataFn v i` is byte `i` of value `v`. -/
def writeOp (dt : WLDataType) (dataFn : Nat → Nat → Nat)
    (p : EEPROMWearLeveling × Mem) (v : Nat) : EEPROMWearLeveling × Mem :=
  let st := p.1
  let m := p.2
  let newSlot := (st.currentSlot dt + 1) % WL_NUM_SLOTS
  let m2 := writeSlot m dt newSlot (st.nextSequence dt) (dataFn v)
  let seqIncr := (st.nextSequence dt + 1) % 65536
  let seqNext := if seqIncr = WL_INVALID_SEQUENCE ∨ seqIncr = 0xFFFF then 1 else seqIncr
  ({ nextSequence := setAt st.nextSequence dt seqNext
     currentSlot := setAt st.currentSlot dt newSlot }, m2)

/-- Iterate `writeOp` over a list of values. -/
def writeManyOp (dt : WLDataType) (dataFn : Nat → Nat → Nat)
    (p : EEPROMWearLeveling × Mem) (vs : List Nat) : EEPROMWearLeveling × Mem :=
  vs.foldl (writeOp dt dataFn) p

/-- State/memory invariant after `k ≥ 1` writes of one data type starting
from a fresh store on erased storage: the next sequence number is `k + 1`,
the current slot is `k % 16` and holds sequence `k` with the payload bytes
of the last value written, while every other slot is empty or holds a
stale sequence congruent to its own index, smaller than `k` and at most 15
behind it. -/
def Inv (dt : WLDataType) (dataFn : Nat → Nat → Nat) (k lastV : Nat)
    (p : EEPROMWearLeveling × Mem) : Prop :=
  p.1.nextSequence dt = k + 1 ∧
  p.1.currentSlot dt = k % 16 ∧
  readSlotSequence p.2 dt (k % 16) = k ∧
  (∀ i, i < (slotConfig dt).dataSize →
    eread p.2 (getSlotAddress dt (k % 16) + WL_SEQUENCE_SIZE + i) = dataFn lastV i % 256) ∧
  (∀ s, s < 16 → s ≠ k % 16 →
    readSlotSequence p.2 dt s = 0 ∨
    (readSlotSequence p.2 dt s % 16 = s ∧ readSlotSequence p.2 dt s < k ∧
      k ≤ readSlotSequence p.2 dt s + 15))

/-- Storage holding exactly the sequence numbers 0xFFFE (at slot `a`),
0xFFFF (at slot `b`) and 0x0001 (at slot `c`) in the time-format region,
with every other cell erased (0xFF).  Sequence fields are little-endian. -/
def mkMem (a b c : Fin 16) : Mem := fun addr =>
  if 10 ≤ addr ∧ addr < 58 then
    let s := (addr - 10) / 3
    let off := (addr - 10) % 3
    let seqv := if s = a.val then 0xFFFE else if s = b.val then 0xFFFF
      else if s = c.val then 1 else 0xFFFF
    if off = 0 then seqv % 256 else if off = 1 then seqv / 256 else 0xFF
  else 0xFF

/-- Storage whose time-format slot 0 holds sequence 0xFFFE with payload 0;
everything else is erased.  This is a legitimate post-wraparound-boundary
state: the last durable write used sequence 0xFFFE. -/
def seqFFFEMem : Mem := ewrite (eput16 erasedMem 10 0xFFFE) 12 0

/-- Payload byte of the time-format slot that `findLatestSlot` selects. -/
def tfPayloadByte (m : Mem) : Nat :=
  eread m (getSlotAddress .WL_TIME_FORMAT (findLatestSlot m .WL_TIME_FORMAT) + WL_SEQUENCE_SIZE)

/-- Decoded payload of the power-cycle slot that `findLatestSlot` selects. -/
def pcPayloadValue (m : Mem) : Nat :=
  decodeLE ((List.range WL_POWER_CYCLE_DATA_SIZE).map fun i =>
    eread m (getSlotAddress .WL_POWER_CYCLE (findLatestSlot m .WL_POWER_CYCLE) + WL_SEQUENCE_SIZE + i))

end EWL

namespace GSF

/-! ### GPS stability filter model (GpsStabilityFilter.h / .cpp) -/

/-- Number of GPS readings to store for filtering. -/
def GPS_FILTER_WINDOW_SIZE : Nat := 12

/-- Minimum readings needed before filtering. -/
def GPS_FILTER_MIN_READINGS : Nat := 3

/-- The upstream GPS module as seen by the filter: validity flags plus the
current latitude, longitude and altitude-in-feet readings. -/
structure TinyGPSPlus where
  locationValid : Bool
  altitudeValid : Bool
  lat : ℚ
  lng : ℚ
  altFeet : ℚ

/-- State of `GpsStabilityFilter`: three parallel circular buffers with a
shared insertion cursor and saturating fill counter.  Buffers are modelled
as total functions; only indices below `GPS_FILTER_WINDOW_SIZE` are ever
read or written. -/
structure GpsStabilityFilter where
  latReadings : Nat → ℚ
  lonReadings : Nat → ℚ
  altReadings : Nat → ℚ
  currentIndex : Nat
  totalReadings : Nat

/-- The constructor: zeroed buffers, cursor 0, no readings yet. -/
def freshFilter : GpsStabilityFilter :=
  { latReadings := fun _ => 0
    lonReadings := fun _ => 0
    altReadings := fun _ => 0
    currentIndex := 0
    totalReadings := 0 }

/-- Write value `v` at buffer position `i`. -/
def bufSet (buf : Nat → ℚ) (i : Nat) (v : ℚ) : Nat → ℚ :=
  fun j => if j = i then v else buf j

/-- `GpsStabilityFilter::update`: skip when the module's location or
altitude is invalid, otherwise append one sample per channel at the shared
cursor, advance the cursor modulo the window size and bump the saturating
fill counter. -/
def update (gps : TinyGPSPlus) (f : GpsStabilityFilter) : GpsStabilityFilter :=
  if gps.locationValid = false ∨ gps.altitudeValid = false then f
  else
    { latReadings := bufSet f.latReadings f.currentIndex gps.lat
      lonReadings := bufSet f.lonReadings f.currentIndex gps.lng
      altReadings := bufSet f.altReadings f.currentIndex gps.altFeet
      currentIndex := (f.currentIndex + 1) % GPS_FILTER_WINDOW_SIZE
      totalReadings :=
        if f.totalReadings < GPS_FILTER_WINDOW_SIZE then f.totalReadings + 1
        else f.totalReadings }

/-- Inner loop of `GpsStabilityFilter::sortFloatArray` for one outer
iteration: perform `m` adjacent compare-and-swap steps from the front of
the list (`j = 0 .. m-1`, comparing positions `j` and `j+1`). -/
def bubblePassUpTo : Nat → List ℚ → List ℚ
  | 0, l => l
  | _ + 1, [] => []
  | _ + 1, [a] => [a]
  | m + 1, a :: b :: t =>
      if b < a then b :: bubblePassUpTo m (a :: t)
      else a :: bubblePassUpTo m (b :: t)

/-- Outer loop of `GpsStabilityFilter::sortFloatArray`: iteration `i` of
the source performs `n - i - 1` comparisons, so the passes run with
`k, k-1, ..., 1` comparisons. -/
def bubbleIters : Nat → List ℚ → List ℚ
  | 0, l => l
  | k + 1, l => bubbleIters k (bubblePassUpTo (k + 1) l)

/-- `GpsStabilityFilter::sortFloatArray`: bubble sort of the `n` collected
samples (the working copy has length `n`). -/
def sortFloatArray (l : List ℚ) : List ℚ := bubbleIters (l.length - 1) l

/-- The filtering block that the source repeats verbatim in each getter:
copy the `readingsToProcess` live samples into a working buffer, sort,
then average the index range `[startIndex, endIndex)` (skipping the bottom
and top 20% when more than 5 readings are available), falling back to the
raw reading if the averaged range is empty. -/
def filterCore (readingsToProcess : Nat) (buf : Nat → ℚ) (raw : ℚ) : ℚ :=
  let workingBuffer := (List.range readingsToProcess).map buf
  let sorted := sortFloatArray workingBuffer
  let startIndex := if 5 < readingsToProcess then readingsToProcess / 5 else 0
  let endIndex := if 5 < readingsToProcess then readingsToProcess - startIndex
    else readingsToProcess
  let trimmed := (sorted.drop startIndex).take (endIndex - startIndex)
  if 0 < trimmed.length then trimmed.sum / (trimmed.length : ℚ) else raw

/-- `GpsStabilityFilter::getFilteredLatitude`: raw passthrough below the
minimum-reading threshold or when the location is invalid; otherwise sort
a working copy of the live samples and average the trimmed middle range. -/
def getFilteredLatitude (gps : TinyGPSPlus) (f : GpsStabilityFilter) : ℚ :=
  if f.totalReadings < GPS_FILTER_MIN_READINGS ∨ gps.locationValid = false then gps.lat
  else filterCore f.totalReadings f.latReadings gps.lat

/-- `GpsStabilityFilter::getFilteredLongitude`: same algorithm on the
longitude buffer. -/
def getFilteredLongitude (gps : TinyGPSPlus) (f : GpsStabilityFilter) : ℚ :=
  if f.totalReadings < GPS_FILTER_MIN_READINGS ∨ gps.locationValid = false then gps.lng
  else filterCore f.totalReadings f.lonReadings gps.lng

/-- `GpsStabilityFilter::getFilteredAltitude`: same algorithm on the
altitude buffer, gated on altitude validity. -/
def getFilteredAltitude (gps : TinyGPSPlus) (f : GpsStabilityFilter) : ℚ :=
  if f.totalReadings < GPS_FILTER_MIN_READINGS ∨ gps.altitudeValid = false then gps.altFeet
  else filterCore f.totalReadings f.altReadings gps.altFeet

/-- Trimmed mean as the specification words it, over an externally given
sorted permutation `s` of the `n` live samples: for `n > 5` discard the
lowest and highest `n / 5` values and average the rest; for `n ≤ 5`
average all `n` values. -/
def trimmedMeanSpec (s : List ℚ) (n : Nat) : ℚ :=
  if 5 < n then
    ((s.drop (n / 5)).take (n - 2 * (n / 5))).sum / ((n - 2 * (n / 5) : Nat) : ℚ)
  else s.sum / (n : ℚ)

/-- `GpsStabilityFilter::getTotalReadings` (the spec's `sampleCount()`). -/
def getTotalReadings (f : GpsStabilityFilter) : Nat := f.totalReadings

/-- Fold a stream of module states through `update`, starting fresh. -/
def foldFilter (gs : List TinyGPSPlus) : GpsStabilityFilter :=
  gs.foldl (fun f g => update g f) freshFilter

/-- A module state reporting valid data with all three channels at `x`. -/
def gpsAt (x : ℚ) : TinyGPSPlus :=
  { locationValid := true, altitudeValid := true, lat := x, lng := x, altFeet := x }

/-- Seventeen valid module states carrying the samples `1, 2, ..., 17`
(the spec's W+5 overwrite scenario). -/
def seventeenSamples : List TinyGPSPlus :=
  [gpsAt 1, gpsAt 2, gpsAt 3, gpsAt 4, gpsAt 5, gpsAt 6, gpsAt 7, gpsAt 8,
   gpsAt 9, gpsAt 10, gpsAt 11, gpsAt 12, gpsAt 13, gpsAt 14, gpsAt 15,
   gpsAt 16, gpsAt 17]

/-- Feed the sample values `1, 2, ..., 12` through `update`. -/
def feedTwelve : GpsStabilityFilter :=
  foldFilter [gpsAt 1, gpsAt 2, gpsAt 3, gpsAt 4, gpsAt 5, gpsAt 6,
    gpsAt 7, gpsAt 8, gpsAt 9, gpsAt 10, gpsAt 11, gpsAt 12]

end GSF

/-! ## Theorems: wear-leveling store -/

namespace EWL

/-! ### Basic lemmas about the scan and slot reads -/

lemma findLatestStep_snd (m : Mem) (dt : WLDataType) (acc : Nat × Nat) (t : Nat) :
    (findLatestStep m dt acc t).2 = acc.2 ∨ (findLatestStep m dt acc t).2 = t := by
  simp only [findLatestStep]
  split_ifs <;> simp

lemma foldl_findLatestStep_slot_lt (m : Mem) (dt : WLDataType) :
    ∀ (l : List Nat), (∀ t ∈ l, t < 16) → ∀ acc : Nat × Nat, acc.2 < 16 →
      (l.foldl (findLatestStep m dt) acc).2 < 16 := by
  intro l
  induction l with
  | nil => intro _ acc h; simpa using h
  | cons t l ih =>
      intro hl acc hacc
      rw [List.foldl_cons]
      refine ih (fun x hx => hl x (List.mem_cons_of_mem _ hx)) _ ?_
      rcases findLatestStep_snd m dt acc t with h | h
      · rw [h]; exact hacc
      · rw [h]; exact hl t (List.mem_cons_self _ _)

/-- The selected latest slot is always in range. -/
lemma findLatestSlot_lt (m : Mem) (dt : WLDataType) : findLatestSlot m dt < 16 := by
  unfold findLatestSlot
  exact foldl_findLatestStep_slot_lt m dt _ (by intro t ht; simpa using List.mem_range.mp ht)
    (0, 0) (by norm_num)

lemma readSlot_eq_none_of_all_invalid (m : Mem) (dt : WLDataType)
    (h : ∀ s, s < WL_NUM_SLOTS → readSlotSequence m dt s = WL_INVALID_SEQUENCE)
    (s : Nat) : readSlot m dt s = none := by
  unfold readSlot
  by_cases hs : WL_NUM_SLOTS ≤ s
  · simp [hs]
  · simp [hs, h s (by omega)]

/-! ### Claim C6: invalid time-format write is a complete no-op -/

/-- C6.  `writeTimeFormat` with a value outside {0, 1} leaves the store
state and every EEPROM cell untouched, so a subsequent `readTimeFormat`
returns exactly what it would have returned before the rejected write. -/
theorem c6_invalid_write_noop (st : EEPROMWearLeveling) (m : Mem) (format : Nat)
    (h0 : format ≠ 0) (h1 : format ≠ 1) :
    writeTimeFormat st m format = (st, m) ∧
    readTimeFormat (writeTimeFormat st m format).2 = readTimeFormat m := by
  have h : writeTimeFormat st m format = (st, m) := by
    unfold writeTimeFormat
    rw [if_pos ⟨h0, h1⟩]
  exact ⟨h, by rw [h]⟩

/-- Witness for C6: rejected write of 2 on a freshly initialized store. -/
theorem c6_invalid_write_noop_witness :
    writeTimeFormat (begin erasedMem) erasedMem 2 = (begin erasedMem, erasedMem) ∧
    readTimeFormat (writeTimeFormat (begin erasedMem) erasedMem 2).2 = readTimeFormat erasedMem :=
  c6_invalid_write_noop (begin erasedMem) erasedMem 2 (by decide) (by decide)

/-! ### Claim C3: a write can store the reserved sequence 0xFFFF -/

/-- C3 fails on the code: starting from storage whose latest time-format
slot holds sequence 0xFFFE (slot 0 of `seqFFFEMem`), `begin` sets
`nextSequence` to 0xFFFF — its `latestSequence == 0xFFFF` wrap check is
dead code because `readSlotSequence` already maps 0xFFFF to 0 — and the
next valid write stores the erased-cell pattern 0xFFFF as the sequence
number.  The freshly written slot then reads back as empty and the
written value is silently lost (`readTimeFormat` still returns the old
payload 0, not the 1 just written). -/
theorem c3_write_stores_reserved_sequence :
    (begin seqFFFEMem).nextSequence .WL_TIME_FORMAT = 0xFFFF ∧
    eget16 (writeTimeFormat (begin seqFFFEMem) seqFFFEMem 1).2
      (getSlotAddress .WL_TIME_FORMAT 1) = 0xFFFF ∧
    readSlotSequence (writeTimeFormat (begin seqFFFEMem) seqFFFEMem 1).2
      .WL_TIME_FORMAT 1 = WL_INVALID_SEQUENCE ∧
    readTimeFormat (writeTimeFormat (begin seqFFFEMem) seqFFFEMem 1).2 = 0 := by
  decide

/-! ### Claim C2: wraparound recovery depends on slot placement -/

/-- C2 as stated is false: with sequence 0x0001 at slot 0, 0xFFFE at
slot 1 and 0xFFFF at slot 2, the scan keeps 0x0001 first, then replaces
it by the numerically larger 0xFFFE — the wraparound heuristic only fires
when the high sequence is scanned before the low one.  `findLatestSlot`
returns slot 1 (holding 0xFFFE), not slot 0 (holding 0x0001). -/
theorem c2_counterexample :
    readSlotSequence (mkMem 1 2 0) .WL_TIME_FORMAT 0 = 1 ∧
    readSlotSequence (mkMem 1 2 0) .WL_TIME_FORMAT 1 = 0xFFFE ∧
    readSlotSequence (mkMem 1 2 0) .WL_TIME_FORMAT 2 = WL_INVALID_SEQUENCE ∧
    (∀ s, s < 16 → 2 < s →
      readSlotSequence (mkMem 1 2 0) .WL_TIME_FORMAT s = WL_INVALID_SEQUENCE) ∧
    findLatestSlot (mkMem 1 2 0) .WL_TIME_FORMAT = 1 ∧
    (begin (mkMem 1 2 0)).currentSlot .WL_TIME_FORMAT = 1 := by
  decide

set_option maxRecDepth 100000 in
set_option maxHeartbeats 4000000 in
/-- C2 amended.  For every placement of the three populated slots in which
the slot holding 0xFFFE is scanned before the slot holding 0x0001
(`a < c`), `begin`'s scan selects the slot holding 0x0001 as latest via
the wraparound heuristic, not the slot holding 0xFFFE. -/
theorem c2_wraparound_recovery_amended : ∀ a b c : Fin 16,
    a ≠ b → b ≠ c → a ≠ c → a < c →
    findLatestSlot (mkMem a b c) .WL_TIME_FORMAT = c.val := by
  decide

/-- Witness for the amended C2 at slots a = 0, b = 1, c = 2. -/
theorem c2_wraparound_recovery_witness :
    findLatestSlot (mkMem 0 1 2) .WL_TIME_FORMAT = (2 : Fin 16).val :=
  c2_wraparound_recovery_amended 0 1 2 (by decide) (by decide) (by decide) (by decide)

/-! ### Claim C9: defaults on empty or invalid storage -/

/-- C9.  If no slot of a data type holds a valid sequence number, or the
payload of the slot selected as latest fails the type-specific validity
check (time-format byte outside {0, 1}; power-cycle count at or above the
0xFFFFFF00 ceiling), the typed readers return the default 0 and signal
nothing. -/
theorem c9_default_on_empty_or_invalid (m : Mem) :
    ((∀ s, s < WL_NUM_SLOTS → readSlotSequence m .WL_TIME_FORMAT s = WL_INVALID_SEQUENCE) →
      readTimeFormat m = 0) ∧
    ((∀ s, s < WL_NUM_SLOTS → readSlotSequence m .WL_POWER_CYCLE s = WL_INVALID_SEQUENCE) →
      readPowerCycleCount m = 0) ∧
    (2 ≤ tfPayloadByte m → readTimeFormat m = 0) ∧
    (0xFFFFFF00 ≤ pcPayloadValue m → readPowerCycleCount m = 0) := by
  refine ⟨?_, ?_, ?_, ?_⟩
  · intro h
    simp only [readTimeFormat]
    rw [readSlot_eq_none_of_all_invalid m _ h]
  · intro h
    simp only [readPowerCycleCount]
    rw [readSlot_eq_none_of_all_invalid m _ h]
  · intro h
    simp only [readTimeFormat, readSlot]
    have h16 : ¬ (WL_NUM_SLOTS ≤ findLatestSlot m .WL_TIME_FORMAT) := by
      have := findLatestSlot_lt m .WL_TIME_FORMAT
      unfold WL_NUM_SLOTS
      omega
    rw [if_neg h16]
    split_ifs with hseq
    · rfl
    · have : decodeLE ((List.range (slotConfig WLDataType.WL_TIME_FORMAT).dataSize).map fun i =>
          eread m (getSlotAddress .WL_TIME_FORMAT (findLatestSlot m .WL_TIME_FORMAT) +
            WL_SEQUENCE_SIZE + i)) = tfPayloadByte m := by
        simp [slotConfig, WL_TIME_FORMAT_DATA_SIZE, decodeLE, tfPayloadByte, List.range_succ]
      simp only [this]
      rw [if_neg (by omega)]
  · intro h
    simp only [readPowerCycleCount, readSlot]
    have h16 : ¬ (WL_NUM_SLOTS ≤ findLatestSlot m .WL_POWER_CYCLE) := by
      have := findLatestSlot_lt m .WL_POWER_CYCLE
      unfold WL_NUM_SLOTS
      omega
    rw [if_neg h16]
    split_ifs with hseq
    · rfl
    · have : decodeLE ((List.range (slotConfig WLDataType.WL_POWER_CYCLE).dataSize).map fun i =>
          eread m (getSlotAddress .WL_POWER_CYCLE (findLatestSlot m .WL_POWER_CYCLE) +
            WL_SEQUENCE_SIZE + i)) = pcPayloadValue m := rfl
      simp only [this]
      rw [if_neg (by omega)]

/-- Witness for C9 on factory-erased storage: every sequence field reads
as invalid and both readers return their default 0. -/
theorem c9_default_witness :
    readTimeFormat erasedMem = 0 ∧ readPowerCycleCount erasedMem = 0 :=
  ⟨(c9_default_on_empty_or_invalid erasedMem).1 (by decide),
   (c9_default_on_empty_or_invalid erasedMem).2.1 (by decide)⟩

end EWL

/-! ## Theorems: GPS stability filter -/

namespace GSF

/-! ### Bubble sort correctness -/

lemma bubblePassUpTo_nil (m : Nat) : bubblePassUpTo m ([] : List ℚ) = [] := by
  cases m <;> rfl

lemma bubblePassUpTo_singleton (m : Nat) (a : ℚ) : bubblePassUpTo m [a] = [a] := by
  cases m <;> rfl

lemma bubblePassUpTo_perm (m : Nat) (l : List ℚ) : (bubblePassUpTo m l).Perm l := by
  induction m generalizing l with
  | zero => exact List.Perm.refl l
  | succ m ih =>
      match l with
      | [] => exact List.Perm.refl []
      | [a] => exact List.Perm.refl [a]
      | a :: b :: t =>
          rw [bubblePassUpTo]
          by_cases h : b < a
          · rw [if_pos h]
            exact ((ih (a :: t)).cons b).trans (List.Perm.swap a b t)
          · rw [if_neg h]
            exact (ih (b :: t)).cons a

lemma bubblePassUpTo_append (m : Nat) (l t : List ℚ) (h : m + 1 ≤ l.length) :
    bubblePassUpTo m (l ++ t) = bubblePassUpTo m l ++ t := by
  induction m generalizing l with
  | zero => rfl
  | succ m ih =>
      match l with
      | [] => simp at h
      | [a] => simp at h
      | a :: b :: l2 =>
          have hlen : m ≤ l2.length := by
            simp only [List.length_cons] at h
            omega
          rw [List.cons_append, List.cons_append, bubblePassUpTo, bubblePassUpTo]
          by_cases hab : b < a
          · rw [if_pos hab, if_pos hab, ← List.cons_append,
              ih (a :: l2) (by simp only [List.length_cons]; omega), List.cons_append]
          · rw [if_neg hab, if_neg hab, ← List.cons_append,
              ih (b :: l2) (by simp only [List.length_cons]; omega), List.cons_append]

lemma bubblePassUpTo_max (m : Nat) (a : ℚ) (l : List ℚ) (h : l.length ≤ m) :
    ∃ l2 M, bubblePassUpTo m (a :: l) = l2 ++ [M] ∧ ∀ x ∈ a :: l, x ≤ M := by
  induction l generalizing a m with
  | nil =>
      refine ⟨[], a, by rw [bubblePassUpTo_singleton]; rfl, ?_⟩
      intro x hx
      rw [List.mem_singleton] at hx
      exact le_of_eq hx
  | cons b t ih =>
      match m with
      | 0 => simp at h
      | m + 1 =>
          have ht : t.length ≤ m := by simpa using h
          rw [bubblePassUpTo]
          by_cases hab : b < a
          · rw [if_pos hab]
            obtain ⟨l2, M, heq, hle⟩ := ih m a ht
            refine ⟨b :: l2, M, by rw [heq]; rfl, ?_⟩
            intro x hx
            rcases List.mem_cons.mp hx with rfl | hx2
            · exact hle x (List.mem_cons_self _ _)
            · rcases List.mem_cons.mp hx2 with rfl | hx3
              · exact le_of_lt (lt_of_lt_of_le hab (hle a (List.mem_cons_self _ _)))
              · exact hle x (List.mem_cons_of_mem _ hx3)
          · rw [if_neg hab]
            obtain ⟨l2, M, heq, hle⟩ := ih m b ht
            refine ⟨a :: l2, M, by rw [heq]; rfl, ?_⟩
            intro x hx
            rcases List.mem_cons.mp hx with rfl | hx2
            · exact le_trans (le_of_not_lt hab) (hle b (List.mem_cons_self _ _))
            · exact hle x hx2

lemma bubbleIters_perm (k : Nat) (l : List ℚ) : (bubbleIters k l).Perm l := by
  induction k generalizing l with
  | zero => exact List.Perm.refl l
  | succ k ih => exact (ih (bubblePassUpTo (k + 1) l)).trans (bubblePassUpTo_perm (k + 1) l)

lemma bubbleIters_append (k : Nat) (l t : List ℚ) (h : k + 1 ≤ l.length) :
    bubbleIters k (l ++ t) = bubbleIters k l ++ t := by
  induction k generalizing l with
  | zero => rfl
  | succ k ih =>
      rw [bubbleIters, bubbleIters, bubblePassUpTo_append (k + 1) l t h,
        ih (bubblePassUpTo (k + 1) l)
          (by rw [(bubblePassUpTo_perm (k + 1) l).length_eq]; omega)]

lemma bubbleIters_sorted (k : Nat) (l : List ℚ) (h : l.length = k + 1) :
    (bubbleIters k l).Sorted (· ≤ ·) := by
  induction k generalizing l with
  | zero =>
      match l with
      | [a] => exact List.sorted_singleton a
  | succ k ih =>
      match l with
      | a :: t =>
          have ht : t.length = k + 1 := by simpa using h
          obtain ⟨l2, M, heq, hle⟩ := bubblePassUpTo_max (k + 1) a t (by omega)
          have hperm : (l2 ++ [M]).Perm (a :: t) := heq ▸ bubblePassUpTo_perm (k + 1) (a :: t)
          have hl2 : l2.length = k + 1 := by
            have := hperm.length_eq
            simp at this ⊢
            omega
          rw [bubbleIters, heq, bubbleIters_append k l2 [M] (by omega)]
          refine List.pairwise_append.mpr ⟨ih l2 hl2, List.sorted_singleton M, ?_⟩
          intro x hx y hy
          rw [List.mem_singleton] at hy
          subst hy
          exact hle x (hperm.mem_iff.mp (List.mem_append_left _ ((bubbleIters_perm k l2).mem_iff.mp hx)))

/-- The source's bubble sort produces a sorted permutation of its input. -/
lemma sortFloatArray_perm (l : List ℚ) : (sortFloatArray l).Perm l :=
  bubbleIters_perm _ l

lemma sortFloatArray_sorted (l : List ℚ) : (sortFloatArray l).Sorted (· ≤ ·) := by
  match l with
  | [] => exact List.sorted_nil
  | a :: t => exact bubbleIters_sorted t.length (a :: t) (by simp)

/-! ### Claim C4: trimmed-mean filtering -/

lemma filterCore_eq_trimmedMeanSpec (n : Nat) (buf : Nat → ℚ) (raw : ℚ)
    (h3 : 3 ≤ n) (s : List ℚ)
    (hp : s.Perm ((List.range n).map buf)) (hs : s.Sorted (· ≤ ·)) :
    filterCore n buf raw = trimmedMeanSpec s n := by
  have hlen : s.length = n := by simpa using hp.length_eq
  have hsort : sortFloatArray ((List.range n).map buf) = s :=
    List.eq_of_perm_of_sorted ((sortFloatArray_perm _).trans hp.symm)
      (sortFloatArray_sorted _) hs
  simp only [filterCore, trimmedMeanSpec, hsort]
  by_cases h5 : 5 < n
  · simp only [if_pos h5]
    have hdl : (s.drop (n / 5)).length = n - n / 5 := by
      rw [List.length_drop, hlen]
    have htl : ((s.drop (n / 5)).take (n - n / 5 - n / 5)).length = n - n / 5 - n / 5 := by
      rw [List.length_take, hdl]
      omega
    have hpos : 0 < n - n / 5 - n / 5 := by omega
    rw [if_pos (by rw [htl]; exact hpos)]
    have harg : n - n / 5 - n / 5 = n - 2 * (n / 5) := by omega
    rw [htl, harg]
  · simp only [if_neg h5]
    have hts : s.take (n - 0) = s := by
      apply List.take_of_length_le
      omega
    rw [List.drop_zero, hts, hlen]
    rw [if_pos (by omega)]

/-- C4.  For every channel and 3 ≤ n ≤ 12 collected samples, the getter
sorts the n live samples ascending and returns the arithmetic mean after
discarding the lowest and highest `n / 5` values when n > 5, or the mean
of all n samples when n ≤ 5 (stated against any sorted permutation `s` of
the live samples); in particular, feeding the 12 samples 1..12 into a
channel yields 13/2 = 6.5. -/
theorem c4_trimmed_mean :
    (∀ (gps : TinyGPSPlus) (f : GpsStabilityFilter),
      gps.locationValid = true → gps.altitudeValid = true →
      3 ≤ f.totalReadings → f.totalReadings ≤ 12 →
      (∀ s : List ℚ, s.Perm ((List.range f.totalReadings).map f.latReadings) →
        s.Sorted (· ≤ ·) → getFilteredLatitude gps f = trimmedMeanSpec s f.totalReadings) ∧
      (∀ s : List ℚ, s.Perm ((List.range f.totalReadings).map f.lonReadings) →
        s.Sorted (· ≤ ·) → getFilteredLongitude gps f = trimmedMeanSpec s f.totalReadings) ∧
      (∀ s : List ℚ, s.Perm ((List.range f.totalReadings).map f.altReadings) →
        s.Sorted (· ≤ ·) → getFilteredAltitude gps f = trimmedMeanSpec s f.totalReadings)) ∧
    getFilteredLatitude (gpsAt 12) feedTwelve = 13 / 2 := by
  constructor
  · intro gps f hloc halt h3 _h12
    have hmin : ¬ (f.totalReadings < GPS_FILTER_MIN_READINGS) := by
      unfold GPS_FILTER_MIN_READINGS
      omega
    refine ⟨?_, ?_, ?_⟩
    · intro s hp hs
      simp only [getFilteredLatitude]
      rw [if_neg (by rw [hloc]; simp [hmin])]
      exact filterCore_eq_trimmedMeanSpec _ _ _ h3 s hp hs
    · intro s hp hs
      simp only [getFilteredLongitude]
      rw [if_neg (by rw [hloc]; simp [hmin])]
      exact filterCore_eq_trimmedMeanSpec _ _ _ h3 s hp hs
    · intro s hp hs
      simp only [getFilteredAltitude]
      rw [if_neg (by rw [halt]; simp [hmin])]
      exact filterCore_eq_trimmedMeanSpec _ _ _ h3 s hp hs
  · norm_num [getFilteredLatitude, filterCore, feedTwelve, foldFilter, update, freshFilter,
      bufSet, sortFloatArray, bubbleIters, bubblePassUpTo, gpsAt,
      GPS_FILTER_WINDOW_SIZE, GPS_FILTER_MIN_READINGS, List.range_succ]

/-- Witness for C4: the longitude channel of the filter fed 1..12, against
the explicitly sorted sample list, evaluates to the trimmed mean 13/2. -/
theorem c4_trimmed_mean_witness :
    getFilteredLongitude (gpsAt 12) feedTwelve = 13 / 2 := by
  have hbuf : (List.range feedTwelve.totalReadings).map feedTwelve.lonReadings =
      [1, 2, 3, 4, 5, 6, 7, 8, 9, 10, 11, 12] := by
    norm_num [feedTwelve, foldFilter, update, freshFilter, bufSet, gpsAt,
      GPS_FILTER_WINDOW_SIZE, List.range_succ]
  have h := ((c4_trimmed_mean.1 (gpsAt 12) feedTwelve rfl rfl
      (by norm_num [feedTwelve, foldFilter, update, freshFilter, bufSet, gpsAt,
        GPS_FILTER_WINDOW_SIZE])
      (by norm_num [feedTwelve, foldFilter, update, freshFilter, bufSet, gpsAt,
        GPS_FILTER_WINDOW_SIZE])).2.1
    ([1, 2, 3, 4, 5, 6, 7, 8, 9, 10, 11, 12] : List ℚ)
    (by rw [hbuf]) (by norm_num [List.sorted_cons]))
  rw [h]
  have hn : feedTwelve.totalReadings = 12 := by
    norm_num [feedTwelve, foldFilter, update, freshFilter, bufSet, gpsAt,
      GPS_FILTER_WINDOW_SIZE]
  rw [hn]
  norm_num [trimmedMeanSpec]

/-! ### Claim C8: cold-start passthrough -/

/-- C8.  With fewer than `GPS_FILTER_MIN_READINGS` collected samples, every
getter returns the module's current raw reading unchanged — no sorting,
trimming or averaging happens. -/
theorem c8_cold_start_passthrough (gps : TinyGPSPlus) (f : GpsStabilityFilter)
    (h : f.totalReadings < GPS_FILTER_MIN_READINGS) :
    getFilteredLatitude gps f = gps.lat ∧
    getFilteredLongitude gps f = gps.lng ∧
    getFilteredAltitude gps f = gps.altFeet := by
  refine ⟨?_, ?_, ?_⟩ <;> simp only [getFilteredLatitude, getFilteredLongitude,
    getFilteredAltitude] <;> rw [if_pos (Or.inl h)]

/-- Witness for C8: a fresh filter (0 samples) passes the raw reading
through on all three channels. -/
theorem c8_cold_start_witness :
    getFilteredLatitude (gpsAt 7) freshFilter = (gpsAt 7).lat ∧
    getFilteredLongitude (gpsAt 7) freshFilter = (gpsAt 7).lng ∧
    getFilteredAltitude (gpsAt 7) freshFilter = (gpsAt 7).altFeet :=
  c8_cold_start_passthrough (gpsAt 7) freshFilter (by decide)

/-! ### Claim C10: invalid module data forces raw passthrough -/

/-- C10.  Whenever the module reports its location (resp. altitude) as
invalid at the moment of the call, the corresponding getters return the
raw live value and ignore the buffered samples entirely, regardless of how
many samples have been collected; the trimmed-mean path requires valid
data at call time. -/
theorem c10_invalid_gps_passthrough (gps : TinyGPSPlus) (f : GpsStabilityFilter) :
    (gps.locationValid = false →
      getFilteredLatitude gps f = gps.lat ∧ getFilteredLongitude gps f = gps.lng) ∧
    (gps.altitudeValid = false → getFilteredAltitude gps f = gps.altFeet) := by
  constructor
  · intro h
    constructor
    · simp only [getFilteredLatitude]
      rw [if_pos (Or.inr h)]
    · simp only [getFilteredLongitude]
      rw [if_pos (Or.inr h)]
  · intro h
    simp only [getFilteredAltitude]
    rw [if_pos (Or.inr h)]

/-- Witness for C10: a full filter (12 samples collected) still returns
the raw reading when the module reports invalid data. -/
theorem c10_invalid_gps_witness :
    getFilteredLatitude { gpsAt 3 with locationValid := false } feedTwelve =
      ({ gpsAt 3 with locationValid := false } : TinyGPSPlus).lat ∧
    getFilteredLongitude { gpsAt 3 with locationValid := false } feedTwelve =
      ({ gpsAt 3 with locationValid := false } : TinyGPSPlus).lng :=
  (c10_invalid_gps_passthrough { gpsAt 3 with locationValid := false } feedTwelve).1 rfl

end GSF

/-! ## Theorems: wear rotation (C5) -/

namespace EWL

lemma writeTimeFormat_valid_currentSlot (st : EEPROMWearLeveling) (m : Mem) (f : Nat)
    (hv : f = 0 ∨ f = 1) :
    (writeTimeFormat st m f).1.currentSlot .WL_TIME_FORMAT =
      (st.currentSlot .WL_TIME_FORMAT + 1) % WL_NUM_SLOTS ∧
    (writeTimeFormat st m f).1.currentSlot .WL_TIME_FORMAT < WL_NUM_SLOTS := by
  have hcond : ¬ (f ≠ 0 ∧ f ≠ 1) := by
    rcases hv with rfl | rfl <;> simp
  have h1 : (writeTimeFormat st m f).1.currentSlot .WL_TIME_FORMAT =
      (st.currentSlot .WL_TIME_FORMAT + 1) % WL_NUM_SLOTS := by
    simp [writeTimeFormat, hcond, setAt]
  refine ⟨h1, ?_⟩
  rw [h1]
  unfold WL_NUM_SLOTS
  omega

lemma writeManyTF_cons (st : EEPROMWearLeveling) (m : Mem) (v : Nat) (vs : List Nat) :
    writeManyTF (st, m) (v :: vs) = writeManyTF (writeTimeFormat st m v) vs := rfl

lemma writeManyTF_currentSlot (vs : List Nat) :
    ∀ (st : EEPROMWearLeveling) (m : Mem),
    st.currentSlot .WL_TIME_FORMAT < WL_NUM_SLOTS →
    (∀ v ∈ vs, v = 0 ∨ v = 1) →
    (writeManyTF (st, m) vs).1.currentSlot .WL_TIME_FORMAT =
      (st.currentSlot .WL_TIME_FORMAT + vs.length) % WL_NUM_SLOTS := by
  induction vs with
  | nil =>
      intro st m hc _
      simp only [writeManyTF, List.foldl_nil, List.length_nil, Nat.add_zero]
      exact (Nat.mod_eq_of_lt hc).symm
  | cons v vs ih =>
      intro st m hc hv
      have hv0 : v = 0 ∨ v = 1 := hv v (List.mem_cons_self _ _)
      obtain ⟨hslot, hlt⟩ := writeTimeFormat_valid_currentSlot st m v hv0
      rcases hp : writeTimeFormat st m v with ⟨st2, m2⟩
      rw [writeManyTF_cons, hp]
      rw [hp] at hslot hlt
      rw [ih st2 m2 hlt (fun x hx => hv x (List.mem_cons_of_mem _ hx)), hslot]
      simp only [List.length_cons]
      unfold WL_NUM_SLOTS
      omega

/-- C5.  A valid write always targets slot `(currentSlotIndex + 1) mod N`
(both the state update and the memory write use that slot), and over any
sequence of valid writes the slot written on call `i` is
`(start + i) mod N`, so no two consecutive writes target the same slot. -/
theorem c5_wear_rotation :
    (∀ (st : EEPROMWearLeveling) (m : Mem) (f : Nat), (f = 0 ∨ f = 1) →
      (writeTimeFormat st m f).1.currentSlot .WL_TIME_FORMAT =
        (st.currentSlot .WL_TIME_FORMAT + 1) % WL_NUM_SLOTS ∧
      (writeTimeFormat st m f).2 =
        writeSlot m .WL_TIME_FORMAT ((st.currentSlot .WL_TIME_FORMAT + 1) % WL_NUM_SLOTS)
          (st.nextSequence .WL_TIME_FORMAT) (fun _ => f)) ∧
    (∀ (st : EEPROMWearLeveling) (m : Mem) (c : Nat),
      (writePowerCycleCount st m c).1.currentSlot .WL_POWER_CYCLE =
        (st.currentSlot .WL_POWER_CYCLE + 1) % WL_NUM_SLOTS ∧
      (writePowerCycleCount st m c).2 =
        writeSlot m .WL_POWER_CYCLE ((st.currentSlot .WL_POWER_CYCLE + 1) % WL_NUM_SLOTS)
          (st.nextSequence .WL_POWER_CYCLE) (fun i => c / 256 ^ i)) ∧
    (∀ (st : EEPROMWearLeveling) (m : Mem) (vs : List Nat),
      st.currentSlot .WL_TIME_FORMAT < WL_NUM_SLOTS →
      (∀ v ∈ vs, v = 0 ∨ v = 1) →
      (∀ k, k ≤ vs.length →
        (writeManyTF (st, m) (vs.take k)).1.currentSlot .WL_TIME_FORMAT =
          (st.currentSlot .WL_TIME_FORMAT + k) % WL_NUM_SLOTS) ∧
      (∀ k, k < vs.length →
        (writeManyTF (st, m) (vs.take (k + 1))).1.currentSlot .WL_TIME_FORMAT ≠
          (writeManyTF (st, m) (vs.take k)).1.currentSlot .WL_TIME_FORMAT)) := by
  refine ⟨?_, ?_, ?_⟩
  · intro st m f hv
    have hcond : ¬ (f ≠ 0 ∧ f ≠ 1) := by
      rcases hv with rfl | rfl <;> simp
    exact ⟨(writeTimeFormat_valid_currentSlot st m f hv).1,
      by simp [writeTimeFormat, hcond]⟩
  · intro st m c
    exact ⟨by simp [writePowerCycleCount, setAt], by simp [writePowerCycleCount]⟩
  · intro st m vs hc hv
    have htake : ∀ k, k ≤ vs.length →
        (writeManyTF (st, m) (vs.take k)).1.currentSlot .WL_TIME_FORMAT =
          (st.currentSlot .WL_TIME_FORMAT + k) % WL_NUM_SLOTS := by
      intro k hk
      rw [writeManyTF_currentSlot (vs.take k) st m hc
        (fun x hx => hv x (List.take_subset k vs hx))]
      rw [List.length_take]
      congr 1
      omega
    refine ⟨htake, ?_⟩
    intro k hk
    rw [htake k (by omega), htake (k + 1) (by omega)]
    unfold WL_NUM_SLOTS
    omega

/-- Witness for C5: on a freshly initialized store, the first write lands
in slot 1 and two writes advance the slot by two. -/
theorem c5_wear_rotation_witness :
    (writeTimeFormat (begin erasedMem) erasedMem 1).1.currentSlot .WL_TIME_FORMAT =
      ((begin erasedMem).currentSlot .WL_TIME_FORMAT + 1) % WL_NUM_SLOTS ∧
    (writeManyTF (begin erasedMem, erasedMem) ([1, 0, 1].take 2)).1.currentSlot
        .WL_TIME_FORMAT =
      ((begin erasedMem).currentSlot .WL_TIME_FORMAT + 2) % WL_NUM_SLOTS :=
  ⟨(c5_wear_rotation.1 (begin erasedMem) erasedMem 1 (Or.inr rfl)).1,
   (c5_wear_rotation.2.2 (begin erasedMem) erasedMem [1, 0, 1] (by decide)
     (by decide)).1 2 (by decide)⟩

end EWL

/-! ## Theorems: filter ring buffer (C7) -/

namespace GSF

lemma foldFilter_append_singleton (gs : List TinyGPSPlus) (g : TinyGPSPlus) :
    foldFilter (gs ++ [g]) = update g (foldFilter gs) := by
  simp [foldFilter, List.foldl_append]

lemma getD_append_lt (l l2 : List TinyGPSPlus) (n : Nat) (d : TinyGPSPlus)
    (h : n < l.length) : (l ++ l2).getD n d = l.getD n d := by
  rw [List.getD_eq_getElem _ _ (by simp; omega), List.getD_eq_getElem _ _ h,
    List.getElem_append_left h]

lemma getD_concat_self (l : List TinyGPSPlus) (g d : TinyGPSPlus) :
    (l ++ [g]).getD l.length d = g := by
  rw [List.getD_eq_getElem _ _ (by simp)]
  simp

lemma foldFilter_invariant (gs : List TinyGPSPlus)
    (hv : ∀ g ∈ gs, g.locationValid = true ∧ g.altitudeValid = true) :
    (foldFilter gs).currentIndex = gs.length % 12 ∧
    (foldFilter gs).totalReadings = min gs.length 12 ∧
    (∀ i, i < 12 →
      (foldFilter gs).latReadings i =
        (if i < gs.length then
          (gs.getD (gs.length - 1 - ((gs.length - 1 - i) % 12)) (gpsAt 0)).lat else 0) ∧
      (foldFilter gs).lonReadings i =
        (if i < gs.length then
          (gs.getD (gs.length - 1 - ((gs.length - 1 - i) % 12)) (gpsAt 0)).lng else 0) ∧
      (foldFilter gs).altReadings i =
        (if i < gs.length then
          (gs.getD (gs.length - 1 - ((gs.length - 1 - i) % 12)) (gpsAt 0)).altFeet else 0)) := by
  induction gs using List.reverseRecOn with
  | nil =>
      refine ⟨rfl, rfl, ?_⟩
      intro i hi
      refine ⟨?_, ?_, ?_⟩ <;> simp [foldFilter, freshFilter]
  | append_singleton gs g ih =>
      obtain ⟨ihc, iht, ihb⟩ := ih (fun x hx => hv x (by simp [hx]))
      have hg := hv g (by simp)
      have hcond : ¬ (g.locationValid = false ∨ g.altitudeValid = false) := by
        rw [hg.1, hg.2]
        simp
      rw [foldFilter_append_singleton]
      simp only [update, if_neg hcond, List.length_append, List.length_singleton]
      refine ⟨?_, ?_, ?_⟩
      · rw [ihc]
        unfold GPS_FILTER_WINDOW_SIZE
        omega
      · rw [iht]
        unfold GPS_FILTER_WINDOW_SIZE
        rw [Nat.min_def, Nat.min_def]
        split_ifs <;> omega
      · intro i hi
        obtain ⟨ihl, ihn, iha⟩ := ihb i hi
        simp only [bufSet, ihc]
        by_cases hieq : i = gs.length % 12
        · have hidx : gs.length + 1 - 1 - ((gs.length + 1 - 1 - i) % 12) = gs.length := by
            omega
          have hKlt : i < gs.length + 1 := by omega
          simp only [if_pos hieq, hidx, if_pos hKlt, getD_concat_self]
          simp
        · by_cases hiK : i < gs.length
          · have hidx : gs.length + 1 - 1 - ((gs.length + 1 - 1 - i) % 12) =
                gs.length - 1 - ((gs.length - 1 - i) % 12) := by
              omega
            have hlt : gs.length - 1 - ((gs.length - 1 - i) % 12) < gs.length := by
              omega
            have hKlt : i < gs.length + 1 := by omega
            have hgd : (gs ++ [g]).getD (gs.length - 1 - ((gs.length - 1 - i) % 12)) (gpsAt 0) =
                gs.getD (gs.length - 1 - ((gs.length - 1 - i) % 12)) (gpsAt 0) :=
              getD_append_lt _ _ _ _ hlt
            simp only [if_neg hieq, hidx, if_pos hKlt, hgd, ihl, ihn, iha, if_pos hiK]
            simp
          · have hKge : ¬ (i < gs.length + 1) := by omega
            simp only [if_neg hieq, if_neg hKge, ihl, ihn, iha, if_neg hiK]
            simp

lemma buffer_list_eq (gs : List TinyGPSPlus) (buf : Nat → ℚ) (val : TinyGPSPlus → ℚ)
    (hK : 12 ≤ gs.length)
    (hpt : ∀ i, i < 12 →
      buf i = val (gs.getD (gs.length - 1 - ((gs.length - 1 - i) % 12)) (gpsAt 0))) :
    (List.range 12).map buf =
      ((gs.drop (gs.length - 12)).map val).drop (12 - gs.length % 12) ++
      ((gs.drop (gs.length - 12)).map val).take (12 - gs.length % 12) := by
  have hlasts : ((gs.drop (gs.length - 12)).map val).length = 12 := by
    simp
    omega
  apply List.ext_getElem
  · simp only [List.length_map, List.length_range, List.length_append,
      List.length_drop, List.length_take, List.length_map, List.length_drop] at *
    omega
  · intro i h1 h2
    have hi : i < 12 := by simpa using h1
    rw [List.getElem_map, List.getElem_range, hpt i hi]
    by_cases hir : i < gs.length % 12
    · rw [List.getElem_append_left (by rw [List.length_drop, hlasts]; omega)]
      rw [List.getElem_drop, List.getElem_map, List.getElem_drop]
      have hidx : gs.length - 1 - ((gs.length - 1 - i) % 12) =
          gs.length - 12 + (12 - gs.length % 12 + i) := by
        omega
      rw [hidx, List.getD_eq_getElem _ _ (by omega)]
    · rw [List.getElem_append_right (by rw [List.length_drop, hlasts]; omega)]
      simp only [List.length_drop, hlasts]
      rw [List.getElem_take, List.getElem_map, List.getElem_drop]
      have hidx : gs.length - 1 - ((gs.length - 1 - i) % 12) =
          gs.length - 12 + (i - (12 - (12 - gs.length % 12)))  := by
        omega
      rw [hidx, List.getD_eq_getElem _ _ (by omega)]

/-- C7.  A valid `update` appends one sample per channel at the shared
cursor, advances the cursor modulo W = 12 and bumps the fill counter,
saturating at 12; consequently after K ≥ 12 valid updates the fill count
is exactly 12 and each channel buffer holds exactly the most recent 12
samples (as a rotation of the list of the last 12 samples — the older
samples have been overwritten). -/
theorem c7_ring_buffer :
    (∀ (gps : TinyGPSPlus) (f : GpsStabilityFilter),
      gps.locationValid = true → gps.altitudeValid = true →
      (update gps f).latReadings f.currentIndex = gps.lat ∧
      (update gps f).lonReadings f.currentIndex = gps.lng ∧
      (update gps f).altReadings f.currentIndex = gps.altFeet ∧
      (update gps f).currentIndex = (f.currentIndex + 1) % GPS_FILTER_WINDOW_SIZE ∧
      (update gps f).totalReadings =
        (if f.totalReadings < GPS_FILTER_WINDOW_SIZE then f.totalReadings + 1
         else f.totalReadings)) ∧
    (∀ gs : List TinyGPSPlus,
      (∀ g ∈ gs, g.locationValid = true ∧ g.altitudeValid = true) →
      GPS_FILTER_WINDOW_SIZE ≤ gs.length →
      getTotalReadings (foldFilter gs) = GPS_FILTER_WINDOW_SIZE ∧
      (List.range GPS_FILTER_WINDOW_SIZE).map (foldFilter gs).latReadings =
        ((gs.drop (gs.length - GPS_FILTER_WINDOW_SIZE)).map (fun g => g.lat)).drop
            (GPS_FILTER_WINDOW_SIZE - gs.length % GPS_FILTER_WINDOW_SIZE) ++
        ((gs.drop (gs.length - GPS_FILTER_WINDOW_SIZE)).map (fun g => g.lat)).take
            (GPS_FILTER_WINDOW_SIZE - gs.length % GPS_FILTER_WINDOW_SIZE) ∧
      (List.range GPS_FILTER_WINDOW_SIZE).map (foldFilter gs).lonReadings =
        ((gs.drop (gs.length - GPS_FILTER_WINDOW_SIZE)).map (fun g => g.lng)).drop
            (GPS_FILTER_WINDOW_SIZE - gs.length % GPS_FILTER_WINDOW_SIZE) ++
        ((gs.drop (gs.length - GPS_FILTER_WINDOW_SIZE)).map (fun g => g.lng)).take
            (GPS_FILTER_WINDOW_SIZE - gs.length % GPS_FILTER_WINDOW_SIZE) ∧
      (List.range GPS_FILTER_WINDOW_SIZE).map (foldFilter gs).altReadings =
        ((gs.drop (gs.length - GPS_FILTER_WINDOW_SIZE)).map (fun g => g.altFeet)).drop
            (GPS_FILTER_WINDOW_SIZE - gs.length % GPS_FILTER_WINDOW_SIZE) ++
        ((gs.drop (gs.length - GPS_FILTER_WINDOW_SIZE)).map (fun g => g.altFeet)).take
            (GPS_FILTER_WINDOW_SIZE - gs.length % GPS_FILTER_WINDOW_SIZE)) := by
  constructor
  · intro gps f hl ha
    have hcond : ¬ (gps.locationValid = false ∨ gps.altitudeValid = false) := by
      rw [hl, ha]
      simp
    simp [update, if_neg hcond, bufSet]
  · intro gs hv hlen
    unfold GPS_FILTER_WINDOW_SIZE at hlen ⊢
    obtain ⟨hc, ht, hb⟩ := foldFilter_invariant gs hv
    refine ⟨?_, ?_, ?_, ?_⟩
    · rw [getTotalReadings, ht]
      rw [Nat.min_def]
      split_ifs <;> omega
    · exact buffer_list_eq gs _ _ hlen
        (fun i hi => by rw [(hb i hi).1, if_pos (by omega)])
    · exact buffer_list_eq gs _ _ hlen
        (fun i hi => by rw [(hb i hi).2.1, if_pos (by omega)])
    · exact buffer_list_eq gs _ _ hlen
        (fun i hi => by rw [(hb i hi).2.2, if_pos (by omega)])

/-- Witness for C7: after the 17 updates of `seventeenSamples` the fill
counter has saturated at 12. -/
theorem c7_ring_buffer_witness :
    getTotalReadings (foldFilter seventeenSamples) = GPS_FILTER_WINDOW_SIZE :=
  (c7_ring_buffer.2 seventeenSamples (by decide) (by decide)).1

end GSF

/-! ## Theorems: recovery correctness (C1) -/

namespace EWL

/-! ### Byte-level memory lemmas -/

lemma eread_ewrite_self (m : Mem) (a v : Nat) : eread (ewrite m a v) a = v % 256 := by
  simp [eread, ewrite]

lemma eread_ewrite_ne (m : Mem) (a v x : Nat) (h : x ≠ a) :
    eread (ewrite m a v) x = eread m x := by
  simp [eread, ewrite, h]

lemma eread_writeBytes_outside (m : Mem) (a : Nat) (d : Nat → Nat) (count x : Nat)
    (h : x < a ∨ a + count ≤ x) : eread (writeBytes m a d count) x = eread m x := by
  induction count with
  | zero => rfl
  | succ k ih =>
      rw [writeBytes, eread_ewrite_ne _ _ _ _ (by omega), ih (by omega)]

lemma eread_writeBytes_at (m : Mem) (a : Nat) (d : Nat → Nat) (count i : Nat)
    (h : i < count) : eread (writeBytes m a d count) (a + i) = d i % 256 := by
  induction count with
  | zero => omega
  | succ k ih =>
      rw [writeBytes]
      by_cases hik : i = k
      · subst hik
        rw [eread_ewrite_self]
      · rw [eread_ewrite_ne _ _ _ _ (by omega), ih (by omega)]

lemma eread_eput16_outside (m : Mem) (a v x : Nat) (h : x ≠ a ∧ x ≠ a + 1) :
    eread (eput16 m a v) x = eread m x := by
  rw [eput16, eread_ewrite_ne _ _ _ _ h.2, eread_ewrite_ne _ _ _ _ h.1]

lemma eget16_eput16 (m : Mem) (a v : Nat) : eget16 (eput16 m a v) a = v % 65536 := by
  rw [eget16, eput16]
  rw [show ewrite (ewrite m a (v % 256)) (a + 1) (v / 256 % 256) =
    ewrite (ewrite m a (v % 256)) (a + 1) (v / 256 % 256) from rfl]
  rw [eread_ewrite_ne _ _ _ _ (by omega), eread_ewrite_self, eread_ewrite_self]
  omega

lemma eget16_writeBytes_outside (m : Mem) (a : Nat) (d : Nat → Nat) (count x : Nat)
    (h : x + 1 < a ∨ a + count ≤ x) : eget16 (writeBytes m a d count) x = eget16 m x := by
  rw [eget16, eget16, eread_writeBytes_outside _ _ _ _ _ (by omega),
    eread_writeBytes_outside _ _ _ _ _ (by omega)]

lemma eget16_eput16_outside (m : Mem) (a v x : Nat)
    (h : x + 1 < a ∨ a + 2 ≤ x) : eget16 (eput16 m a v) x = eget16 m x := by
  rw [eget16, eget16, eread_eput16_outside _ _ _ _ (by omega),
    eread_eput16_outside _ _ _ _ (by omega)]

/-! ### Slot-level memory lemmas -/

lemma slotSize_eq (dt : WLDataType) :
    (slotConfig dt).slotSize = WL_SEQUENCE_SIZE + (slotConfig dt).dataSize := by
  cases dt <;> rfl

lemma slot_disjoint (dt : WLDataType) (s t : Nat) (hs : s < 16) (ht : t < 16)
    (hne : s ≠ t) (x : Nat) (h1 : getSlotAddress dt s ≤ x)
    (h2 : x < getSlotAddress dt s + (slotConfig dt).slotSize) :
    x < getSlotAddress dt t ∨ getSlotAddress dt t + (slotConfig dt).slotSize ≤ x := by
  cases dt <;>
    simp only [getSlotAddress, slotConfig, WL_TIME_FORMAT_START_ADDR,
      WL_POWER_CYCLE_START_ADDR, WL_TIME_FORMAT_SLOT_SIZE, WL_POWER_CYCLE_SLOT_SIZE,
      WL_SEQUENCE_SIZE, WL_TIME_FORMAT_DATA_SIZE, WL_POWER_CYCLE_DATA_SIZE] at * <;>
    omega

lemma eread_writeSlot_outside (m : Mem) (dt : WLDataType) (t q : Nat) (d : Nat → Nat)
    (x : Nat) (h : x < getSlotAddress dt t ∨ getSlotAddress dt t + (slotConfig dt).slotSize ≤ x) :
    eread (writeSlot m dt t q d) x = eread m x := by
  unfold writeSlot
  split_ifs with h16
  · rfl
  · have hss := slotSize_eq dt
    rw [eread_writeBytes_outside _ _ _ _ _ (by unfold WL_SEQUENCE_SIZE at *; omega),
      eread_eput16_outside _ _ _ _ (by unfold WL_SEQUENCE_SIZE at *; omega)]

lemma readSlotSequence_writeSlot_other (m : Mem) (dt : WLDataType) (s t q : Nat)
    (d : Nat → Nat) (hs : s < 16) (ht : t < 16) (hne : s ≠ t) :
    readSlotSequence (writeSlot m dt t q d) dt s = readSlotSequence m dt s := by
  have h2 : 2 ≤ (slotConfig dt).slotSize := by cases dt <;> norm_num [slotConfig,
    WL_TIME_FORMAT_SLOT_SIZE, WL_POWER_CYCLE_SLOT_SIZE, WL_SEQUENCE_SIZE,
    WL_TIME_FORMAT_DATA_SIZE, WL_POWER_CYCLE_DATA_SIZE]
  unfold readSlotSequence
  split_ifs with h16
  · rfl
  · have hg : eget16 (writeSlot m dt t q d) (getSlotAddress dt s) =
        eget16 m (getSlotAddress dt s) := by
      rw [eget16, eget16,
        eread_writeSlot_outside _ _ _ _ _ _
          (slot_disjoint dt s t hs ht hne _ (le_refl _) (by omega)),
        eread_writeSlot_outside _ _ _ _ _ _
          (slot_disjoint dt s t hs ht hne _ (by omega) (by omega))]
    rw [hg]

lemma readSlotSequence_writeSlot_self (m : Mem) (dt : WLDataType) (t q : Nat)
    (d : Nat → Nat) (ht : t < 16) (hq : q ≤ 0xFFFE) :
    readSlotSequence (writeSlot m dt t q d) dt t = q := by
  have hws : writeSlot m dt t q d =
      writeBytes (eput16 m (getSlotAddress dt t) q)
        (getSlotAddress dt t + WL_SEQUENCE_SIZE) d (slotConfig dt).dataSize := by
    unfold writeSlot
    rw [if_neg (by unfold WL_NUM_SLOTS; omega)]
  have hg : eget16 (writeSlot m dt t q d) (getSlotAddress dt t) = q := by
    rw [hws, eget16_writeBytes_outside _ _ _ _ _ (by unfold WL_SEQUENCE_SIZE; omega),
      eget16_eput16]
    omega
  unfold readSlotSequence
  rw [if_neg (by unfold WL_NUM_SLOTS; omega)]
  simp only [hg]
  rw [if_neg (by omega)]

lemma eread_payload_writeSlot_self (m : Mem) (dt : WLDataType) (t q : Nat)
    (d : Nat → Nat) (ht : t < 16) (i : Nat) (hi : i < (slotConfig dt).dataSize) :
    eread (writeSlot m dt t q d) (getSlotAddress dt t + WL_SEQUENCE_SIZE + i) = d i % 256 := by
  unfold writeSlot
  rw [if_neg (by unfold WL_NUM_SLOTS; omega)]
  exact eread_writeBytes_at _ _ _ _ _ hi

lemma eread_payload_writeSlot_other (m : Mem) (dt : WLDataType) (s t q : Nat)
    (d : Nat → Nat) (hs : s < 16) (ht : t < 16) (hne : s ≠ t) (i : Nat)
    (hi : i < (slotConfig dt).dataSize) :
    eread (writeSlot m dt t q d) (getSlotAddress dt s + WL_SEQUENCE_SIZE + i) =
      eread m (getSlotAddress dt s + WL_SEQUENCE_SIZE + i) := by
  have hss := slotSize_eq dt
  exact eread_writeSlot_outside _ _ _ _ _ _
    (slot_disjoint dt s t hs ht hne _ (by omega) (by unfold WL_SEQUENCE_SIZE at *; omega))

end EWL

namespace EWL

/-! ### Bridging the typed writers to the generic write step -/

lemma writeTimeFormat_eq_writeOp (st : EEPROMWearLeveling) (m : Mem) (f : Nat)
    (hv : f = 0 ∨ f = 1) :
    writeTimeFormat st m f = writeOp .WL_TIME_FORMAT (fun v _ => v) (st, m) f := by
  have hcond : ¬ (f ≠ 0 ∧ f ≠ 1) := by
    rcases hv with rfl | rfl <;> simp
  simp [writeTimeFormat, writeOp, hcond]

lemma writePowerCycleCount_eq_writeOp (st : EEPROMWearLeveling) (m : Mem) (c : Nat) :
    writePowerCycleCount st m c = writeOp .WL_POWER_CYCLE (fun v i => v / 256 ^ i) (st, m) c :=
  rfl

lemma writeManyTF_eq_writeManyOp (vs : List Nat) :
    ∀ p : EEPROMWearLeveling × Mem, (∀ v ∈ vs, v = 0 ∨ v = 1) →
    writeManyTF p vs = writeManyOp .WL_TIME_FORMAT (fun v _ => v) p vs := by
  induction vs with
  | nil => intro p _; rfl
  | cons v vs ih =>
      intro p hv
      have h1 : writeTimeFormat p.1 p.2 v = writeOp .WL_TIME_FORMAT (fun v _ => v) p v := by
        rw [writeTimeFormat_eq_writeOp p.1 p.2 v (hv v (List.mem_cons_self _ _))]
      show writeManyTF (writeTimeFormat p.1 p.2 v) vs = _
      rw [h1]
      exact ih _ (fun x hx => hv x (List.mem_cons_of_mem _ hx))

lemma writeManyPC_eq_writeManyOp (vs : List Nat) (p : EEPROMWearLeveling × Mem) :
    writeManyPC p vs = writeManyOp .WL_POWER_CYCLE (fun v i => v / 256 ^ i) p vs :=
  rfl

/-! ### The invariant is established and preserved -/

lemma begin_erased_nextSequence (dt : WLDataType) :
    (begin erasedMem).nextSequence dt = 1 := by
  cases dt <;> decide

lemma begin_erased_currentSlot (dt : WLDataType) :
    (begin erasedMem).currentSlot dt = 0 := by
  cases dt <;> decide

lemma readSlotSequence_erased (dt : WLDataType) (s : Nat) :
    readSlotSequence erasedMem dt s = 0 := by
  unfold readSlotSequence
  by_cases h1 : WL_NUM_SLOTS ≤ s
  · rw [if_pos h1]
    rfl
  · rw [if_neg h1]
    have heg : eget16 erasedMem (getSlotAddress dt s) = 0xFFFF := by
      unfold eget16 eread erasedMem
      norm_num
    simp [heg, WL_INVALID_SEQUENCE]

lemma readSlotSequence_oob (m : Mem) (dt : WLDataType) (s : Nat) (h : 16 ≤ s) :
    readSlotSequence m dt s = 0 := by
  unfold readSlotSequence
  rw [if_pos (by unfold WL_NUM_SLOTS; omega)]
  rfl

lemma inv_step (dt : WLDataType) (dataFn : Nat → Nat → Nat) (k lastV : Nat)
    (p : EEPROMWearLeveling × Mem) (v : Nat) (hk1 : 1 ≤ k) (hk : k + 2 ≤ 0xFFFE)
    (h : Inv dt dataFn k lastV p) : Inv dt dataFn (k + 1) v (writeOp dt dataFn p v) := by
  obtain ⟨h1, h2, h3, h4, h5⟩ := h
  have hslot : (p.1.currentSlot dt + 1) % WL_NUM_SLOTS = (k + 1) % 16 := by
    rw [h2]
    unfold WL_NUM_SLOTS
    omega
  have hseq : p.1.nextSequence dt = k + 1 := h1
  have hlt16 : (k + 1) % 16 < 16 := Nat.mod_lt _ (by norm_num)
  refine ⟨?_, ?_, ?_, ?_, ?_⟩
  · show setAt p.1.nextSequence dt _ dt = k + 1 + 1
    rw [setAt, if_pos rfl, hseq]
    have : (k + 1 + 1) % 65536 = k + 2 := by omega
    rw [this, if_neg (by unfold WL_INVALID_SEQUENCE; omega)]
  · show setAt p.1.currentSlot dt _ dt = (k + 1) % 16
    rw [setAt, if_pos rfl]
    exact hslot
  · show readSlotSequence (writeSlot p.2 dt _ _ _) dt ((k + 1) % 16) = k + 1
    rw [hslot, hseq]
    exact readSlotSequence_writeSlot_self _ _ _ _ _ hlt16 (by omega)
  · intro i hi
    show eread (writeSlot p.2 dt _ _ _) _ = _
    rw [hslot, hseq]
    exact eread_payload_writeSlot_self _ _ _ _ _ hlt16 i hi
  · intro s hs hne
    have hm2 : (writeOp dt dataFn p v).2 = writeSlot p.2 dt ((k + 1) % 16) (k + 1) (dataFn v) := by
      show writeSlot p.2 dt ((p.1.currentSlot dt + 1) % WL_NUM_SLOTS) (p.1.nextSequence dt)
        (dataFn v) = _
      rw [hslot, hseq]
    rw [hm2, readSlotSequence_writeSlot_other _ _ _ _ _ _ hs hlt16 hne]
    by_cases hk16 : s = k % 16
    · right
      subst hk16
      rw [h3]
      refine ⟨by omega, by omega, by omega⟩
    · rcases h5 s hs hk16 with h0 | ⟨hm, hlt, hge⟩
      · left
        exact h0
      · right
        exact ⟨hm, by omega, by omega⟩

lemma inv_base (dt : WLDataType) (dataFn : Nat → Nat → Nat) (v : Nat) :
    Inv dt dataFn 1 v (writeOp dt dataFn (begin erasedMem, erasedMem) v) := by
  have hop : writeOp dt dataFn (begin erasedMem, erasedMem) v =
      ({ nextSequence := setAt (begin erasedMem).nextSequence dt 2
         currentSlot := setAt (begin erasedMem).currentSlot dt 1 },
       writeSlot erasedMem dt 1 1 (dataFn v)) := by
    simp only [writeOp, begin_erased_currentSlot, begin_erased_nextSequence]
    norm_num [WL_NUM_SLOTS, WL_INVALID_SEQUENCE]
  rw [Inv, hop]
  have h116 : (1 : Nat) % 16 = 1 := rfl
  refine ⟨by simp [setAt], by simp [setAt], ?_, ?_, ?_⟩
  · rw [h116]
    exact readSlotSequence_writeSlot_self _ _ _ _ _ (by norm_num) (by norm_num)
  · intro i hi
    rw [h116]
    exact eread_payload_writeSlot_self erasedMem dt 1 1 (dataFn v) (by norm_num) i hi
  · intro t ht hne
    rw [h116] at hne
    left
    rw [readSlotSequence_writeSlot_other erasedMem dt t 1 1 (dataFn v) ht (by norm_num) hne]
    exact readSlotSequence_erased dt t

lemma inv_many (dt : WLDataType) (dataFn : Nat → Nat → Nat) (vs : List Nat) :
    ∀ (k lastV : Nat) (p : EEPROMWearLeveling × Mem), 1 ≤ k → k + vs.length ≤ 0xFFFD →
    Inv dt dataFn k lastV p →
    Inv dt dataFn (k + vs.length) (vs.getLastD lastV) (writeManyOp dt dataFn p vs) := by
  induction vs with
  | nil =>
      intro k lastV p _ _ h
      simpa [writeManyOp] using h
  | cons v vs ih =>
      intro k lastV p hk1 hlen h
      have hlen2 : k + 1 + vs.length ≤ 0xFFFD := by
        simp only [List.length_cons] at hlen
        omega
      have hstep := inv_step dt dataFn k lastV p v hk1 (by omega) h
      have := ih (k + 1) v (writeOp dt dataFn p v) (by omega) hlen2 hstep
      have harith : k + 1 + vs.length = k + (v :: vs).length := by
        simp
        omega
      rw [harith] at this
      rw [List.getLastD_cons]
      exact this

end EWL

namespace EWL

/-! ### The rescan finds the invariant's current slot -/

lemma findLatestSlot_of_inv (dt : WLDataType) (dataFn : Nat → Nat → Nat) (k lastV : Nat)
    (st : EEPROMWearLeveling) (m : Mem) (hk1 : 1 ≤ k) (hkb : k ≤ 0xFFFE)
    (h : Inv dt dataFn k lastV (st, m)) : findLatestSlot m dt = k % 16 := by
  obtain ⟨_, _, h3p, _, h5p⟩ := h
  have h3 : readSlotSequence m dt (k % 16) = k := h3p
  have h5 : ∀ s, s < 16 → s ≠ k % 16 →
      readSlotSequence m dt s = 0 ∨
      (readSlotSequence m dt s % 16 = s ∧ readSlotSequence m dt s < k ∧
        k ≤ readSlotSequence m dt s + 15) := h5p
  have hub : ∀ t, readSlotSequence m dt t ≤ k := by
    intro t
    by_cases ht : t < 16
    · by_cases hte : t = k % 16
      · rw [hte, h3]
      · rcases h5 t ht hte with h0 | ⟨_, hlt, _⟩
        · rw [h0]
          omega
        · omega
    · rw [readSlotSequence_oob m dt t (by omega)]
      omega
  have hlb : ∀ t, readSlotSequence m dt t ≠ 0 → k ≤ readSlotSequence m dt t + 15 := by
    intro t hne
    by_cases ht : t < 16
    · by_cases hte : t = k % 16
      · rw [hte, h3]
        omega
      · rcases h5 t ht hte with h0 | ⟨_, _, hge⟩
        · exact absurd h0 hne
        · exact hge
    · rw [readSlotSequence_oob m dt t (by omega)] at hne
      exact absurd rfl hne
  have hmod : k % 16 < 16 := Nat.mod_lt _ (by norm_num)
  have post_step : ∀ t, findLatestStep m dt (k, k % 16) t = (k, k % 16) := by
    intro t
    simp only [findLatestStep]
    by_cases h0 : readSlotSequence m dt t ≠ WL_INVALID_SEQUENCE
    · rw [if_pos h0]
      have hu := hub t
      have hl := hlb t (by unfold WL_INVALID_SEQUENCE at h0; exact h0)
      rw [if_neg]
      unfold WL_INVALID_SEQUENCE
      omega
    · rw [if_neg h0]
  have pre_step : ∀ acc : Nat × Nat,
      (acc = (0, 0) ∨ ∃ s, s < 16 ∧ s ≠ k % 16 ∧ readSlotSequence m dt s ≠ 0 ∧
        acc = (readSlotSequence m dt s, s)) →
      findLatestStep m dt acc (k % 16) = (k, k % 16) := by
    intro acc hacc
    simp only [findLatestStep, h3]
    rw [if_pos (by unfold WL_INVALID_SEQUENCE; omega)]
    rcases hacc with rfl | ⟨s, hs, hsn, hsne, rfl⟩
    · have hcnd : ((0, 0) : Nat × Nat).1 = WL_INVALID_SEQUENCE ∨ ((0, 0) : Nat × Nat).1 < k ∨
          (0xF000 < ((0, 0) : Nat × Nat).1 ∧ k < 0x1000) := Or.inl rfl
      rw [if_pos hcnd]
    · have hlt : readSlotSequence m dt s < k := by
        rcases h5 s hs hsn with h0 | ⟨_, hlt, _⟩
        · exact absurd h0 hsne
        · exact hlt
      have hcnd : (readSlotSequence m dt s, s).1 = WL_INVALID_SEQUENCE ∨
          (readSlotSequence m dt s, s).1 < k ∨
          (0xF000 < (readSlotSequence m dt s, s).1 ∧ k < 0x1000) := Or.inr (Or.inl hlt)
      rw [if_pos hcnd]
  have pre_pres : ∀ (t : Nat) (acc : Nat × Nat), t < 16 → t ≠ k % 16 →
      (acc = (0, 0) ∨ ∃ s, s < 16 ∧ s ≠ k % 16 ∧ readSlotSequence m dt s ≠ 0 ∧
        acc = (readSlotSequence m dt s, s)) →
      (findLatestStep m dt acc t = (0, 0) ∨ ∃ s, s < 16 ∧ s ≠ k % 16 ∧
        readSlotSequence m dt s ≠ 0 ∧ findLatestStep m dt acc t = (readSlotSequence m dt s, s)) := by
    intro t acc ht htne hacc
    simp only [findLatestStep]
    by_cases h0 : readSlotSequence m dt t ≠ WL_INVALID_SEQUENCE
    · rw [if_pos h0]
      by_cases hcond : acc.1 = WL_INVALID_SEQUENCE ∨ acc.1 < readSlotSequence m dt t ∨
          (0xF000 < acc.1 ∧ readSlotSequence m dt t < 0x1000)
      · rw [if_pos hcond]
        right
        refine ⟨t, ht, htne, ?_, rfl⟩
        unfold WL_INVALID_SEQUENCE at h0
        exact h0
      · rw [if_neg hcond]
        exact hacc
    · rw [if_neg h0]
      exact hacc
  have main : ∀ j, j ≤ 16 →
      ((k % 16 < j →
        (List.range j).foldl (findLatestStep m dt) (WL_INVALID_SEQUENCE, 0) = (k, k % 16)) ∧
       (j ≤ k % 16 →
        ((List.range j).foldl (findLatestStep m dt) (WL_INVALID_SEQUENCE, 0) = (0, 0) ∨
         ∃ s, s < 16 ∧ s ≠ k % 16 ∧ readSlotSequence m dt s ≠ 0 ∧
           (List.range j).foldl (findLatestStep m dt) (WL_INVALID_SEQUENCE, 0) =
             (readSlotSequence m dt s, s)))) := by
    intro j
    induction j with
    | zero =>
        intro _
        refine ⟨fun hcontra => absurd hcontra (by omega), fun _ => Or.inl rfl⟩
    | succ j ihj =>
        intro hj16
        obtain ⟨hpost, hpre⟩ := ihj (by omega)
        rw [List.range_succ, List.foldl_append, List.foldl_cons, List.foldl_nil]
        constructor
        · intro hklt
          by_cases hcase : k % 16 < j
          · rw [hpost hcase]
            exact post_step j
          · have hj : j = k % 16 := by omega
            subst hj
            exact pre_step _ (hpre (le_refl _))
        · intro hle
          exact pre_pres j _ (by omega) (by omega) (hpre (by omega))
  have h16 := (main 16 (le_refl 16)).1 hmod
  unfold findLatestSlot
  rw [show WL_NUM_SLOTS = 16 from rfl, h16]

end EWL

namespace EWL

/-! ### Reading back the last value under the invariant -/

lemma readTimeFormat_of_inv (k lastV : Nat) (p : EEPROMWearLeveling × Mem)
    (hk1 : 1 ≤ k) (hkb : k ≤ 0xFFFE) (hv : lastV = 0 ∨ lastV = 1)
    (h : Inv .WL_TIME_FORMAT (fun v _ => v) k lastV p) :
    readTimeFormat p.2 = lastV := by
  have hp : Inv .WL_TIME_FORMAT (fun v _ => v) k lastV (p.1, p.2) := h
  have hfind := findLatestSlot_of_inv _ _ k lastV p.1 p.2 hk1 hkb hp
  obtain ⟨_, _, h3p, h4p, _⟩ := h
  have h3 : readSlotSequence p.2 .WL_TIME_FORMAT (k % 16) = k := h3p
  have hmod : k % 16 < 16 := Nat.mod_lt _ (by norm_num)
  have hlast256 : lastV % 256 = lastV := by
    rcases hv with rfl | rfl <;> rfl
  have hrs : readSlot p.2 .WL_TIME_FORMAT (k % 16) = some [lastV] := by
    rw [readSlot, if_neg (by unfold WL_NUM_SLOTS; omega),
      if_neg (by rw [h3]; unfold WL_INVALID_SEQUENCE; omega)]
    have hds : (slotConfig WLDataType.WL_TIME_FORMAT).dataSize = 1 := rfl
    rw [hds, show List.range 1 = [0] from rfl, List.map_cons, List.map_nil]
    have h40 := h4p 0 (by rw [hds]; omega)
    rw [h40]
    rw [hlast256]
  simp only [readTimeFormat, hfind, hrs]
  have hdec : decodeLE [lastV] = lastV := by
    simp [decodeLE]
  rw [hdec, if_pos hv]

lemma readPowerCycleCount_of_inv (k lastV : Nat) (p : EEPROMWearLeveling × Mem)
    (hk1 : 1 ≤ k) (hkb : k ≤ 0xFFFE) (hv : lastV < 0xFFFFFF00)
    (h : Inv .WL_POWER_CYCLE (fun v i => v / 256 ^ i) k lastV p) :
    readPowerCycleCount p.2 = lastV := by
  have hp : Inv .WL_POWER_CYCLE (fun v i => v / 256 ^ i) k lastV (p.1, p.2) := h
  have hfind := findLatestSlot_of_inv _ _ k lastV p.1 p.2 hk1 hkb hp
  obtain ⟨_, _, h3p, h4p, _⟩ := h
  have h3 : readSlotSequence p.2 .WL_POWER_CYCLE (k % 16) = k := h3p
  have hmod : k % 16 < 16 := Nat.mod_lt _ (by norm_num)
  have hds : (slotConfig WLDataType.WL_POWER_CYCLE).dataSize = 4 := rfl
  have hrs : readSlot p.2 .WL_POWER_CYCLE (k % 16) =
      some [lastV / 256 ^ 0 % 256, lastV / 256 ^ 1 % 256,
        lastV / 256 ^ 2 % 256, lastV / 256 ^ 3 % 256] := by
    rw [readSlot, if_neg (by unfold WL_NUM_SLOTS; omega),
      if_neg (by rw [h3]; unfold WL_INVALID_SEQUENCE; omega)]
    have hr4 : List.range (slotConfig WLDataType.WL_POWER_CYCLE).dataSize = [0, 1, 2, 3] := by
      rw [hds]
      rfl
    rw [hr4, List.map_cons, List.map_cons, List.map_cons, List.map_cons, List.map_nil,
      h4p 0 (by omega), h4p 1 (by rw [hds]; omega), h4p 2 (by rw [hds]; omega),
      h4p 3 (by rw [hds]; omega)]
  simp only [readPowerCycleCount, hfind, hrs]
  have hdec : decodeLE [lastV / 256 ^ 0 % 256, lastV / 256 ^ 1 % 256,
      lastV / 256 ^ 2 % 256, lastV / 256 ^ 3 % 256] = lastV := by
    simp only [decodeLE, List.foldr_cons, List.foldr_nil]
    norm_num
    omega
  rw [hdec, if_pos hv]

/-! ### Claim C1: recovery returns the last value written -/

set_option maxRecDepth 4000 in
/-- C1.  Starting from a fresh store on factory-erased storage, after any
nonempty sequence of valid writes of one data type (each value passing its
type's validity check, with no sequence-number wraparound: at most 0xFFFD
writes), the corresponding read — which rescans storage exactly as a fresh
instance running `begin()` would — returns the last value written. -/
theorem c1_recovery_correctness (vs : List Nat) (hne : vs ≠ [])
    (hlen : vs.length ≤ 0xFFFD) :
    ((∀ v ∈ vs, v = 0 ∨ v = 1) →
      readTimeFormat (writeManyTF (begin erasedMem, erasedMem) vs).2 = vs.getLast hne) ∧
    ((∀ v ∈ vs, v < 0xFFFFFF00) →
      readPowerCycleCount (writeManyPC (begin erasedMem, erasedMem) vs).2 = vs.getLast hne) := by
  rcases vs with _ | ⟨v, vs2⟩
  · exact absurd rfl hne
  have hlen2 : 1 + vs2.length ≤ 0xFFFD := by
    simp only [List.length_cons] at hlen
    omega
  have hlast : (v :: vs2).getLast hne = vs2.getLastD v := by
    rw [List.getLast_eq_getLastD]
  constructor
  · intro hv
    rw [writeManyTF_eq_writeManyOp _ _ hv, hlast]
    have hfold : writeManyOp .WL_TIME_FORMAT (fun v _ => v)
        (begin erasedMem, erasedMem) (v :: vs2) =
        writeManyOp .WL_TIME_FORMAT (fun v _ => v)
          (writeOp .WL_TIME_FORMAT (fun v _ => v) (begin erasedMem, erasedMem) v) vs2 := by
      simp only [writeManyOp, List.foldl_cons]
    rw [hfold]
    have hinv := inv_many .WL_TIME_FORMAT (fun v _ => v) vs2 1 v
      (writeOp .WL_TIME_FORMAT (fun v _ => v) (begin erasedMem, erasedMem) v)
      (le_refl 1) hlen2 (inv_base _ _ v)
    have hvlast : vs2.getLastD v = 0 ∨ vs2.getLastD v = 1 := by
      have hmem : (v :: vs2).getLast hne ∈ v :: vs2 := List.getLast_mem hne
      rw [hlast] at hmem
      exact hv _ hmem
    exact readTimeFormat_of_inv (1 + vs2.length) (vs2.getLastD v) _
      (by omega) (by omega) hvlast hinv
  · intro hv
    rw [writeManyPC_eq_writeManyOp, hlast]
    have hfold : writeManyOp .WL_POWER_CYCLE (fun v i => v / 256 ^ i)
        (begin erasedMem, erasedMem) (v :: vs2) =
        writeManyOp .WL_POWER_CYCLE (fun v i => v / 256 ^ i)
          (writeOp .WL_POWER_CYCLE (fun v i => v / 256 ^ i) (begin erasedMem, erasedMem) v)
          vs2 := by
      simp only [writeManyOp, List.foldl_cons]
    rw [hfold]
    have hinv := inv_many .WL_POWER_CYCLE (fun v i => v / 256 ^ i) vs2 1 v
      (writeOp .WL_POWER_CYCLE (fun v i => v / 256 ^ i) (begin erasedMem, erasedMem) v)
      (le_refl 1) hlen2 (inv_base _ _ v)
    have hvlast : vs2.getLastD v < 0xFFFFFF00 := by
      have hmem : (v :: vs2).getLast hne ∈ v :: vs2 := List.getLast_mem hne
      rw [hlast] at hmem
      exact hv _ hmem
    exact readPowerCycleCount_of_inv (1 + vs2.length) (vs2.getLastD v) _
      (by omega) (by omega) hvlast hinv

/-- Witness for C1: writing 1, 0, 1 to the time-format store and 5, 77,
123456789 to the power-cycle store, the reads return the last values. -/
theorem c1_recovery_witness :
    readTimeFormat (writeManyTF (begin erasedMem, erasedMem) [1, 0, 1]).2 = 1 ∧
    readPowerCycleCount (writeManyPC (begin erasedMem, erasedMem) [5, 77, 123456789]).2 =
      123456789 := by
  constructor
  · have h := (c1_recovery_correctness [1, 0, 1] (by decide) (by decide)).1 (by decide)
    simpa using h
  · have h := (c1_recovery_correctness [5, 77, 123456789] (by decide) (by decide)).2 (by decide)
    simpa using h

end EWL
